import Mathlib

/-!
# Verification of the `deser_benchmarks` manual zero-copy codec

Shallow embedding of the binary record codec from `src/manual_zerocopy.rs`,
`src/manual_zerocopy_v2.rs` and `src/manual_zerocopy_v3.rs`.

Byte buffers are `List Nat` (each entry a byte value `< 256`); machine
integers are `Nat` with explicit `% 2 ^ w` at the points where the Rust code
truncates (`as u32`) or where machine-width overflow matters.
-/

/-- One byte buffer entry is a value `< 256`; a buffer is a list of bytes. -/
def Bytes := List Nat

deriving instance DecidableEq for Except

/-- Little-endian encoding of `v` into exactly `w` bytes, mirroring Rust's
`to_le_bytes` on a `w`-byte unsigned integer (the value is implicitly taken
`mod 256 ^ w`). -/
def toLeBytes : Nat → Nat → List Nat
  | 0, _ => []
  | w + 1, v => v % 256 :: toLeBytes w (v / 256)

/-- Little-endian decoding of a byte list, mirroring Rust's `from_le_bytes`. -/
def fromLeBytes : List Nat → Nat
  | [] => 0
  | b :: bs => b + 256 * fromLeBytes bs

/-- Model of `FullTerm` from `src/lib.rs`: `doc_id: u64`, `field_mask: u128`,
`frequency: u64`, modelled as `Nat` fields. -/
structure FullTerm where
  doc_id : Nat
  field_mask : Nat
  frequency : Nat
deriving DecidableEq, Repr

/-- The Rust type invariant of `FullTerm`: each field fits its machine width
(`u64`, `u128`, `u64`). -/
def FullTerm.WF (t : FullTerm) : Prop :=
  t.doc_id < 2 ^ 64 ∧ t.field_mask < 2 ^ 128 ∧ t.frequency < 2 ^ 64

instance (t : FullTerm) : Decidable t.WF := by
  unfold FullTerm.WF; infer_instance

/-- Model of `Block` from `src/lib.rs`: an ordered sequence of `FullTerm`s. -/
structure Block where
  full_terms : List FullTerm
deriving DecidableEq, Repr

/-- A well-formed `Block`: every record satisfies the machine-width invariant
and the record count fits the `u32` header. -/
def Block.WF (b : Block) : Prop :=
  b.full_terms.length < 2 ^ 32 ∧ ∀ t ∈ b.full_terms, t.WF

instance (b : Block) : Decidable b.WF := by
  unfold Block.WF; infer_instance

/-- Model of `TERM_SIZE` constant from the source: 8 + 16 + 8 bytes. -/
def TERM_SIZE : Nat := 32

/-- Byte layout of one term, as written by the serializer's loop body:
`doc_id` (8 bytes), `field_mask` (16 bytes), `frequency` (8 bytes),
little-endian each. -/
def serializeTerm (t : FullTerm) : List Nat :=
  toLeBytes 8 t.doc_id ++ toLeBytes 16 t.field_mask ++ toLeBytes 8 t.frequency

/-- Model of `manual_zerocopy::serialize`: a 4-byte little-endian `u32` count header
(`num_terms as u32`, i.e. the length taken mod `2 ^ 32` by the 4-byte
encoding) followed by the terms in order. -/
def serialize (block : Block) : List Nat :=
  toLeBytes 4 block.full_terms.length ++ (block.full_terms.map serializeTerm).flatten

/-- One record read of `manual_zerocopy::deserialize`'s loop body: `u64` at
`offset`, `u128` at `offset + 8`, `u64` at `offset + 24`. -/
def readTerm (bytes : List Nat) (offset : Nat) : FullTerm :=
  { doc_id := fromLeBytes ((bytes.drop offset).take 8)
    field_mask := fromLeBytes ((bytes.drop (offset + 8)).take 16)
    frequency := fromLeBytes ((bytes.drop (offset + 24)).take 8) }

/-- The deserializer's loop: starting at `offset`, read `n` consecutive
32-byte records. -/
def readTerms (bytes : List Nat) : Nat → Nat → List FullTerm
  | _, 0 => []
  | offset, n + 1 => readTerm bytes offset :: readTerms bytes (offset + TERM_SIZE) n

/-- Model of `manual_zerocopy::deserialize`: header check, size check, then one pass
over the validated region. -/
def deserialize (bytes : List Nat) : Except String Block :=
  if bytes.length < 4 then
    .error "Buffer too small for header"
  else
    let num_terms := fromLeBytes (bytes.take 4)
    let expected_size := 4 + num_terms * TERM_SIZE
    if bytes.length < expected_size then
      .error "Buffer too small for data"
    else
      .ok { full_terms := readTerms bytes 4 num_terms }

/-! ### Zero-copy reader (`manual_zerocopy.rs`) -/

/-- Model of `manual_zerocopy::BlockReader`: the borrowed buffer plus the validated
declared count. -/
structure BlockReader where
  bytes : List Nat
  num_terms : Nat
deriving DecidableEq, Repr

/-- Model of `BlockReader::new`: the same two-step validation as `deserialize`. -/
def BlockReader.new (bytes : List Nat) : Except String BlockReader :=
  if bytes.length < 4 then
    .error "Buffer too small for header"
  else
    let num_terms := fromLeBytes (bytes.take 4)
    let expected_size := 4 + num_terms * TERM_SIZE
    if bytes.length < expected_size then
      .error "Buffer too small for data"
    else
      .ok { bytes := bytes, num_terms := num_terms }

def BlockReader.len (r : BlockReader) : Nat := r.num_terms

/-- Model of `manual_zerocopy::TermReader`: a field-view positioned at one record's
byte range. -/
structure TermReader where
  bytes : List Nat
  offset : Nat
deriving DecidableEq, Repr

/-- Model of `manual_zerocopy::TermIterator` state. -/
structure TermIterator where
  bytes : List Nat
  offset : Nat
  remaining : Nat
deriving DecidableEq, Repr

/-- Model of `BlockReader::iter`: a fresh traversal starting at offset 4. -/
def BlockReader.iter (r : BlockReader) : TermIterator :=
  { bytes := r.bytes, offset := 4, remaining := r.num_terms }

/-- Model of `TermIterator::next` (`Iterator::next`): yields the view at the current
offset and the advanced iterator state, or `none` when `remaining = 0` (in
which case Rust leaves the state unchanged). -/
def TermIterator.next (it : TermIterator) : Option (TermReader × TermIterator) :=
  if it.remaining = 0 then
    none
  else
    some ({ bytes := it.bytes, offset := it.offset },
      { bytes := it.bytes, offset := it.offset + TERM_SIZE,
        remaining := it.remaining - 1 })

/-- Model of `Iterator::size_hint`: `(remaining, Some(remaining))`. -/
def TermIterator.size_hint (it : TermIterator) : Nat × Option Nat :=
  (it.remaining, some it.remaining)

/-- Fuel-indexed driver for the iterator. -/
def runIterAux : Nat → TermIterator → List TermReader × TermIterator
  | 0, it => ([], it)
  | fuel + 1, it =>
    match it.next with
    | none => ([], it)
    | some (t, it2) =>
      let r := runIterAux fuel it2
      (t :: r.1, r.2)

/-- Drive the iterator to exhaustion: the yielded items in order and the
final iterator state. `remaining` fuel suffices because `next` decrements
`remaining`, so this is the complete iteration. -/
def TermIterator.run (it : TermIterator) : List TermReader × TermIterator :=
  runIterAux it.remaining it

/-- Model of `TermReader::doc_id`: `u64` little-endian at `offset`. -/
def TermReader.doc_id (t : TermReader) : Nat :=
  fromLeBytes ((t.bytes.drop t.offset).take 8)

/-- Model of `TermReader::field_mask`: `u128` little-endian at `offset + 8`. -/
def TermReader.field_mask (t : TermReader) : Nat :=
  fromLeBytes ((t.bytes.drop (t.offset + 8)).take 16)

/-- Model of `TermReader::frequency`: `u64` little-endian at `offset + 24`. -/
def TermReader.frequency (t : TermReader) : Nat :=
  fromLeBytes ((t.bytes.drop (t.offset + 24)).take 8)

/-- Model of `TermReader::deserialize`: materialize the owned record from the three
accessors. -/
def TermReader.deserialize (t : TermReader) : FullTerm :=
  { doc_id := t.doc_id, field_mask := t.field_mask, frequency := t.frequency }

/-- Rust slice indexing `bytes[start..start + len]` together with the
`try_into` conversion to a fixed-width array: defined exactly when the range
lies inside the buffer (Rust panics otherwise). -/
def checkedSlice (bytes : List Nat) (start len : Nat) : Option (List Nat) :=
  if start + len ≤ bytes.length then some ((bytes.drop start).take len) else none

/-- Model of `TermReader::doc_id` with the slice bound made explicit. -/
def TermReader.docIdChecked (t : TermReader) : Option Nat :=
  (checkedSlice t.bytes t.offset 8).map fromLeBytes

/-- Model of `TermReader::field_mask` with the slice bound made explicit. -/
def TermReader.fieldMaskChecked (t : TermReader) : Option Nat :=
  (checkedSlice t.bytes (t.offset + 8) 16).map fromLeBytes

/-- Model of `TermReader::frequency` with the slice bound made explicit. -/
def TermReader.frequencyChecked (t : TermReader) : Option Nat :=
  (checkedSlice t.bytes (t.offset + 24) 8).map fromLeBytes

/-! ### Machine-width (`usize`) variants of the validation arithmetic -/

/-- A buffer of genuine bytes: every entry is `< 256` (the `u8` invariant). -/
def BytesWF (bytes : List Nat) : Prop := ∀ x ∈ bytes, x < 256

instance (bytes : List Nat) : Decidable (BytesWF bytes) := by
  unfold BytesWF; infer_instance

/-- Model of `manual_zerocopy::deserialize` with the `usize` arithmetic of a `w`-bit
machine made explicit: `expected_size = 4 + num_terms * TERM_SIZE` wraps mod
`2 ^ w` as Rust release-mode arithmetic does. -/
def deserializeUsize (w : Nat) (bytes : List Nat) : Except String Block :=
  if bytes.length < 4 then
    .error "Buffer too small for header"
  else
    let num_terms := fromLeBytes (bytes.take 4) % 2 ^ w
    let expected_size := (4 + num_terms * TERM_SIZE) % 2 ^ w
    if bytes.length < expected_size then
      .error "Buffer too small for data"
    else
      .ok { full_terms := readTerms bytes 4 num_terms }

/-- Model of `BlockReader::new` with the `usize` arithmetic of a `w`-bit machine made
explicit. -/
def BlockReader.newUsize (w : Nat) (bytes : List Nat) : Except String BlockReader :=
  if bytes.length < 4 then
    .error "Buffer too small for header"
  else
    let num_terms := fromLeBytes (bytes.take 4) % 2 ^ w
    let expected_size := (4 + num_terms * TERM_SIZE) % 2 ^ w
    if bytes.length < expected_size then
      .error "Buffer too small for data"
    else
      .ok { bytes := bytes, num_terms := num_terms }

/-! ### `manual_zerocopy_v2.rs`: borrowed field-view objects -/

namespace manual_zerocopy_v2

/-- Model of `ArchivedFullTerm`: direct references to the three field byte ranges. -/
structure ArchivedFullTerm where
  doc_id_bytes : List Nat
  field_mask_bytes : List Nat
  frequency_bytes : List Nat
deriving DecidableEq, Repr

/-- Model of `ArchivedFullTerm::from_bytes_unchecked`: the three byte ranges at
`offset`, `offset + 8`, `offset + 24`. -/
def ArchivedFullTerm.from_bytes_unchecked (bytes : List Nat) (offset : Nat) :
    ArchivedFullTerm :=
  { doc_id_bytes := (bytes.drop offset).take 8
    field_mask_bytes := (bytes.drop (offset + 8)).take 16
    frequency_bytes := (bytes.drop (offset + 24)).take 8 }

def ArchivedFullTerm.doc_id (t : ArchivedFullTerm) : Nat :=
  fromLeBytes t.doc_id_bytes

def ArchivedFullTerm.field_mask (t : ArchivedFullTerm) : Nat :=
  fromLeBytes t.field_mask_bytes

def ArchivedFullTerm.frequency (t : ArchivedFullTerm) : Nat :=
  fromLeBytes t.frequency_bytes

/-- Model of `ArchivedFullTerm::deserialize`. -/
def ArchivedFullTerm.deserialize (t : ArchivedFullTerm) : FullTerm :=
  { doc_id := t.doc_id, field_mask := t.field_mask, frequency := t.frequency }

/-- Model of `manual_zerocopy_v2::BlockReader`. -/
structure BlockReader where
  bytes : List Nat
  num_terms : Nat
deriving DecidableEq, Repr

/-- Model of `manual_zerocopy_v2::BlockReader::new`: identical validation to v1. -/
def BlockReader.new (bytes : List Nat) : Except String BlockReader :=
  if bytes.length < 4 then
    .error "Buffer too small for header"
  else
    let num_terms := fromLeBytes (bytes.take 4)
    let expected_size := 4 + num_terms * TERM_SIZE
    if bytes.length < expected_size then
      .error "Buffer too small for data"
    else
      .ok { bytes := bytes, num_terms := num_terms }

def BlockReader.len (r : BlockReader) : Nat := r.num_terms

/-- Model of `manual_zerocopy_v2::TermIterator` state. -/
structure TermIterator where
  bytes : List Nat
  offset : Nat
  remaining : Nat
deriving DecidableEq, Repr

def BlockReader.iter (r : BlockReader) : TermIterator :=
  { bytes := r.bytes, offset := 4, remaining := r.num_terms }

/-- Model of `manual_zerocopy_v2::TermIterator::next`: yields an archived field-view
built by `from_bytes_unchecked`. -/
def TermIterator.next (it : TermIterator) :
    Option (ArchivedFullTerm × TermIterator) :=
  if it.remaining = 0 then
    none
  else
    some (ArchivedFullTerm.from_bytes_unchecked it.bytes it.offset,
      { bytes := it.bytes, offset := it.offset + TERM_SIZE,
        remaining := it.remaining - 1 })

def TermIterator.size_hint (it : TermIterator) : Nat × Option Nat :=
  (it.remaining, some it.remaining)

/-- Fuel-indexed driver for the v2 iterator. -/
def runIterAux : Nat → TermIterator → List ArchivedFullTerm × TermIterator
  | 0, it => ([], it)
  | fuel + 1, it =>
    match it.next with
    | none => ([], it)
    | some (t, it2) =>
      let r := runIterAux fuel it2
      (t :: r.1, r.2)

/-- Complete iteration of the v2 iterator. -/
def TermIterator.run (it : TermIterator) : List ArchivedFullTerm × TermIterator :=
  runIterAux it.remaining it

/-- Model of `manual_zerocopy_v2::deserialize`: open the reader, then collect
`deserialize()` of every archived item. -/
def deserialize (bytes : List Nat) : Except String Block :=
  match BlockReader.new bytes with
  | .error e => .error e
  | .ok reader => .ok { full_terms := (reader.iter.run).1.map ArchivedFullTerm.deserialize }

end manual_zerocopy_v2

/-! ### `manual_zerocopy_v3.rs`: progressively-consumed-buffer splitting -/

namespace manual_zerocopy_v3

/-- The v3 loop: `split_at` 8/16/8 bytes off the front for the three fields,
then continue on the rest (`drop 32`). -/
def readTerms : List Nat → Nat → List FullTerm
  | _, 0 => []
  | remaining, n + 1 =>
    { doc_id := fromLeBytes (remaining.take 8)
      field_mask := fromLeBytes ((remaining.drop 8).take 16)
      frequency := fromLeBytes ((remaining.drop 24).take 8) }
      :: readTerms (remaining.drop 32) n

/-- Model of `manual_zerocopy_v3::deserialize`: split off the 4-byte header, read the
count, check `remaining.len() < num_terms * TERM_SIZE`, then consume the
buffer by splitting. -/
def deserialize (bytes : List Nat) : Except String Block :=
  if bytes.length < 4 then
    .error "Buffer too small for header"
  else
    let remaining := bytes.drop 4
    let num_terms := fromLeBytes (bytes.take 4)
    let expected_size := num_terms * TERM_SIZE
    if remaining.length < expected_size then
      .error "Buffer too small for data"
    else
      .ok { full_terms := readTerms remaining num_terms }

end manual_zerocopy_v3

/-! ### Basic byte-level lemmas -/

theorem length_toLeBytes (w v : Nat) : (toLeBytes w v).length = w := by
  induction w generalizing v with
  | zero => rfl
  | succ k ih => simp [toLeBytes, ih]

theorem fromLeBytes_toLeBytes (w v : Nat) :
    fromLeBytes (toLeBytes w v) = v % 256 ^ w := by
  induction w generalizing v with
  | zero => simp [toLeBytes, fromLeBytes, Nat.mod_one]
  | succ k ih =>
    simp only [toLeBytes, fromLeBytes, ih]
    rw [pow_succ']
    rw [(Nat.mod_mul_right_div_self v 256 (256 ^ k)).symm,
      (Nat.mod_mod_of_dvd v ⟨256 ^ k, rfl⟩).symm, Nat.mod_add_div]

theorem fromLeBytes_toLeBytes_of_lt {w v : Nat} (h : v < 256 ^ w) :
    fromLeBytes (toLeBytes w v) = v := by
  rw [fromLeBytes_toLeBytes, Nat.mod_eq_of_lt h]

/-- Reading `mid.length` bytes at offset `pre.length` of `pre ++ mid ++ post`
returns `mid`. -/
theorem read_at (pre mid post : List Nat) :
    ((pre ++ mid ++ post).drop pre.length).take mid.length = mid := by
  rw [List.append_assoc, List.drop_left, List.take_left]

theorem length_serializeTerm (t : FullTerm) : (serializeTerm t).length = 32 := by
  simp [serializeTerm, length_toLeBytes]

/-- Reading a `w`-byte little-endian field at offset `pre.length`. -/
theorem read_field (pre rest : List Nat) (w v : Nat) :
    ((pre ++ (toLeBytes w v ++ rest)).drop pre.length).take w = toLeBytes w v := by
  have h := read_at pre (toLeBytes w v) rest
  rw [length_toLeBytes] at h
  rw [← List.append_assoc]
  exact h

/-- Reading one serialized term back at its own offset recovers the term. -/
theorem readTerm_at (pre post : List Nat) (t : FullTerm) (ht : t.WF) :
    readTerm (pre ++ serializeTerm t ++ post) pre.length = t := by
  obtain ⟨d, m, f⟩ := t
  obtain ⟨h1, h2, h3⟩ := ht
  have e1 : pre ++ serializeTerm ⟨d, m, f⟩ ++ post =
      pre ++ (toLeBytes 8 d ++ (toLeBytes 16 m ++ (toLeBytes 8 f ++ post))) := by
    simp [serializeTerm]
  have e2 : pre ++ serializeTerm ⟨d, m, f⟩ ++ post =
      (pre ++ toLeBytes 8 d) ++ (toLeBytes 16 m ++ (toLeBytes 8 f ++ post)) := by
    simp [serializeTerm]
  have e3 : pre ++ serializeTerm ⟨d, m, f⟩ ++ post =
      ((pre ++ toLeBytes 8 d) ++ toLeBytes 16 m) ++ (toLeBytes 8 f ++ post) := by
    simp [serializeTerm]
  have hd : ((pre ++ serializeTerm ⟨d, m, f⟩ ++ post).drop pre.length).take 8 =
      toLeBytes 8 d := by
    rw [e1]; exact read_field pre _ 8 d
  have hm : ((pre ++ serializeTerm ⟨d, m, f⟩ ++ post).drop (pre.length + 8)).take 16 =
      toLeBytes 16 m := by
    rw [e2, show pre.length + 8 = (pre ++ toLeBytes 8 d).length by
      simp [length_toLeBytes]]
    exact read_field (pre ++ toLeBytes 8 d) _ 16 m
  have hf : ((pre ++ serializeTerm ⟨d, m, f⟩ ++ post).drop (pre.length + 24)).take 8 =
      toLeBytes 8 f := by
    rw [e3, show pre.length + 24 = ((pre ++ toLeBytes 8 d) ++ toLeBytes 16 m).length by
      simp [length_toLeBytes]]
    exact read_field ((pre ++ toLeBytes 8 d) ++ toLeBytes 16 m) _ 8 f
  have p8 : (256 : Nat) ^ 8 = 2 ^ 64 := by norm_num
  have p16 : (256 : Nat) ^ 16 = 2 ^ 128 := by norm_num
  simp only [readTerm, hd, hm, hf, fromLeBytes_toLeBytes, p8, p16,
    Nat.mod_eq_of_lt h1, Nat.mod_eq_of_lt h2, Nat.mod_eq_of_lt h3]

/-- The deserializer loop recovers a serialized term sequence placed after any
prefix of the buffer, whatever bytes follow it. -/
theorem readTerms_spec (ts : List FullTerm) (hts : ∀ t ∈ ts, t.WF)
    (pre post : List Nat) :
    readTerms (pre ++ (ts.map serializeTerm).flatten ++ post) pre.length ts.length
      = ts := by
  induction ts generalizing pre with
  | nil => simp [readTerms]
  | cons t rest ih =>
    have hwt : t.WF := hts t (by simp)
    have hwr : ∀ u ∈ rest, u.WF := fun u hu => hts u (by simp [hu])
    rw [List.length_cons, readTerms]
    refine congrArg₂ List.cons ?_ ?_
    · have h := readTerm_at pre ((rest.map serializeTerm).flatten ++ post) t hwt
      simpa [List.append_assoc] using h
    · have h := ih hwr (pre ++ serializeTerm t)
      simpa [List.append_assoc, length_serializeTerm, TERM_SIZE] using h

theorem length_flatten_serializeTerm (ts : List FullTerm) :
    (ts.map serializeTerm).flatten.length = 32 * ts.length := by
  induction ts with
  | nil => rfl
  | cons t rest ih =>
    simp only [List.map_cons, List.flatten_cons, List.length_append,
      length_serializeTerm, ih, List.length_cons]
    ring

theorem length_serialize (b : Block) :
    (serialize b).length = 4 + 32 * b.full_terms.length := by
  rw [serialize, List.length_append, length_toLeBytes, length_flatten_serializeTerm]

theorem take4_serialize (b : Block) :
    (serialize b).take 4 = toLeBytes 4 b.full_terms.length := by
  rw [serialize,
    show (4 : Nat) = (toLeBytes 4 b.full_terms.length).length from
      (length_toLeBytes _ _).symm]
  exact List.take_left _ _

/-- The count header read back is the record count mod `2 ^ 32` (the `as u32`
cast in the serializer). -/
theorem count_serialize (b : Block) :
    fromLeBytes ((serialize b).take 4) = b.full_terms.length % 2 ^ 32 := by
  rw [take4_serialize, fromLeBytes_toLeBytes]
  norm_num

theorem readTerms_serialize (b : Block) (hts : ∀ t ∈ b.full_terms, t.WF) :
    readTerms (serialize b) 4 b.full_terms.length = b.full_terms := by
  have h := readTerms_spec b.full_terms hts (toLeBytes 4 b.full_terms.length) []
  rw [length_toLeBytes] at h
  simpa [serialize] using h

/-! ### Iterator lemmas -/

theorem run_zero (bytes : List Nat) (off : Nat) :
    TermIterator.run ⟨bytes, off, 0⟩ = ([], ⟨bytes, off, 0⟩) := rfl

theorem run_succ (bytes : List Nat) (off n : Nat) :
    TermIterator.run ⟨bytes, off, n + 1⟩ =
      (⟨bytes, off⟩ :: (TermIterator.run ⟨bytes, off + TERM_SIZE, n⟩).1,
        (TermIterator.run ⟨bytes, off + TERM_SIZE, n⟩).2) := by
  simp [TermIterator.run, runIterAux, TermIterator.next]

/-- The items yielded by the v1 iterator are the field-views at offsets
`off + 32 * i` for `i < remaining`, in order. -/
theorem run_items (bytes : List Nat) (off n : Nat) :
    (TermIterator.run ⟨bytes, off, n⟩).1 =
      (List.range n).map (fun i => ⟨bytes, off + TERM_SIZE * i⟩) := by
  induction n generalizing off with
  | zero => simp [run_zero]
  | succ k ih =>
    rw [run_succ, ih, List.range_succ_eq_map, List.map_cons, List.map_map]
    refine congrArg₂ List.cons (by simp) ?_
    refine List.map_congr_left ?_
    intro i _
    simp only [Function.comp_apply, TermReader.mk.injEq, true_and, TERM_SIZE]
    omega

/-- The final v1 iterator state after a complete run. -/
theorem run_final (bytes : List Nat) (off n : Nat) :
    (TermIterator.run ⟨bytes, off, n⟩).2 = ⟨bytes, off + TERM_SIZE * n, 0⟩ := by
  induction n generalizing off with
  | zero => simp [run_zero]
  | succ k ih =>
    rw [run_succ, ih]
    simp only [TermIterator.mk.injEq, true_and, and_true, TERM_SIZE]
    omega

/-- Materializing every yielded item equals the eager deserializer's loop. -/
theorem run_deserialize (bytes : List Nat) (off n : Nat) :
    ((TermIterator.run ⟨bytes, off, n⟩).1).map TermReader.deserialize =
      readTerms bytes off n := by
  induction n generalizing off with
  | zero => simp [run_zero, readTerms]
  | succ k ih =>
    rw [run_succ, readTerms, List.map_cons, ih]
    rfl

theorem v2_run_zero (bytes : List Nat) (off : Nat) :
    manual_zerocopy_v2.TermIterator.run ⟨bytes, off, 0⟩ = ([], ⟨bytes, off, 0⟩) := rfl

theorem v2_run_succ (bytes : List Nat) (off n : Nat) :
    manual_zerocopy_v2.TermIterator.run ⟨bytes, off, n + 1⟩ =
      (manual_zerocopy_v2.ArchivedFullTerm.from_bytes_unchecked bytes off
          :: (manual_zerocopy_v2.TermIterator.run ⟨bytes, off + TERM_SIZE, n⟩).1,
        (manual_zerocopy_v2.TermIterator.run ⟨bytes, off + TERM_SIZE, n⟩).2) := by
  simp [manual_zerocopy_v2.TermIterator.run, manual_zerocopy_v2.runIterAux,
    manual_zerocopy_v2.TermIterator.next]

/-- Materializing every yielded v2 archived item equals the v1 eager
deserializer's loop on the same buffer. -/
theorem v2_run_deserialize (bytes : List Nat) (off n : Nat) :
    ((manual_zerocopy_v2.TermIterator.run ⟨bytes, off, n⟩).1).map
        manual_zerocopy_v2.ArchivedFullTerm.deserialize =
      readTerms bytes off n := by
  induction n generalizing off with
  | zero => simp [v2_run_zero, readTerms]
  | succ k ih =>
    rw [v2_run_succ, readTerms, List.map_cons, ih]
    rfl

/-- The v3 consuming loop on `bytes.drop off` computes the same records as
the v1 indexed loop on `bytes` at offset `off`. -/
theorem readTerms_v3_eq (bytes : List Nat) (off n : Nat) :
    manual_zerocopy_v3.readTerms (bytes.drop off) n = readTerms bytes off n := by
  induction n generalizing off with
  | zero => rfl
  | succ k ih =>
    rw [manual_zerocopy_v3.readTerms, readTerms]
    refine congrArg₂ List.cons ?_ ?_
    · simp only [readTerm, List.drop_drop]
    · have h := ih (off + 32)
      simpa [TERM_SIZE] using h

/-! ### Byte-boundedness lemmas -/

theorem fromLeBytes_lt (l : List Nat) (h : ∀ x ∈ l, x < 256) :
    fromLeBytes l < 256 ^ l.length := by
  induction l with
  | nil => simp [fromLeBytes]
  | cons b bs ih =>
    have hb := h b (by simp)
    have hbs := ih (fun x hx => h x (by simp [hx]))
    simp only [fromLeBytes, List.length_cons]
    rw [pow_succ']
    omega

/-- The count read from the first 4 bytes of a genuine byte buffer is a `u32`
value. -/
theorem count_lt (bytes : List Nat) (h : BytesWF bytes) :
    fromLeBytes (bytes.take 4) < 2 ^ 32 := by
  have h4 : ∀ x ∈ bytes.take 4, x < 256 := fun x hx => h x (List.take_subset 4 bytes hx)
  calc fromLeBytes (bytes.take 4) < 256 ^ (bytes.take 4).length := fromLeBytes_lt _ h4
    _ ≤ 256 ^ 4 := Nat.pow_le_pow_right (by norm_num) (by simp)
    _ = 2 ^ 32 := by norm_num

/-! ### Explicit forms of the validating constructors -/

/-- Unfolded form of `deserialize` (the `let`s inlined). -/
theorem deserialize_eq (bytes : List Nat) :
    deserialize bytes =
      if bytes.length < 4 then .error "Buffer too small for header"
      else if bytes.length < 4 + fromLeBytes (bytes.take 4) * TERM_SIZE then
        .error "Buffer too small for data"
      else .ok ⟨readTerms bytes 4 (fromLeBytes (bytes.take 4))⟩ := rfl

/-- Unfolded form of `BlockReader.new` (the `let`s inlined). -/
theorem new_eq (bytes : List Nat) :
    BlockReader.new bytes =
      if bytes.length < 4 then .error "Buffer too small for header"
      else if bytes.length < 4 + fromLeBytes (bytes.take 4) * TERM_SIZE then
        .error "Buffer too small for data"
      else .ok ⟨bytes, fromLeBytes (bytes.take 4)⟩ := rfl

/-- Unfolded form of `manual_zerocopy_v2.BlockReader.new` (the `let`s inlined). -/
theorem v2_new_eq (bytes : List Nat) :
    manual_zerocopy_v2.BlockReader.new bytes =
      if bytes.length < 4 then .error "Buffer too small for header"
      else if bytes.length < 4 + fromLeBytes (bytes.take 4) * TERM_SIZE then
        .error "Buffer too small for data"
      else .ok ⟨bytes, fromLeBytes (bytes.take 4)⟩ := rfl

/-- Unfolded form of `manual_zerocopy_v3.deserialize` (the `let`s inlined). -/
theorem v3_deserialize_eq (bytes : List Nat) :
    manual_zerocopy_v3.deserialize bytes =
      if bytes.length < 4 then .error "Buffer too small for header"
      else if (bytes.drop 4).length < fromLeBytes (bytes.take 4) * TERM_SIZE then
        .error "Buffer too small for data"
      else .ok ⟨manual_zerocopy_v3.readTerms (bytes.drop 4)
        (fromLeBytes (bytes.take 4))⟩ := rfl

/-- Unfolded form of `deserializeUsize` (the `let`s inlined). -/
theorem usize_deserialize_eq (w : Nat) (bytes : List Nat) :
    deserializeUsize w bytes =
      if bytes.length < 4 then .error "Buffer too small for header"
      else if bytes.length <
          (4 + fromLeBytes (bytes.take 4) % 2 ^ w * TERM_SIZE) % 2 ^ w then
        .error "Buffer too small for data"
      else .ok ⟨readTerms bytes 4 (fromLeBytes (bytes.take 4) % 2 ^ w)⟩ := rfl

/-- Unfolded form of `BlockReader.newUsize` (the `let`s inlined). -/
theorem usize_new_eq (w : Nat) (bytes : List Nat) :
    BlockReader.newUsize w bytes =
      if bytes.length < 4 then .error "Buffer too small for header"
      else if bytes.length <
          (4 + fromLeBytes (bytes.take 4) % 2 ^ w * TERM_SIZE) % 2 ^ w then
        .error "Buffer too small for data"
      else .ok ⟨bytes, fromLeBytes (bytes.take 4) % 2 ^ w⟩ := rfl

/-! ### Acceptance of serialized buffers -/

/-- Opening a serialized block always succeeds; the stored count is the
record count taken mod `2 ^ 32`. -/
theorem new_serialize (b : Block) :
    BlockReader.new (serialize b) =
      .ok ⟨serialize b, b.full_terms.length % 2 ^ 32⟩ := by
  have hlen := length_serialize b
  have hc := count_serialize b
  have hmle : b.full_terms.length % 2 ^ 32 ≤ b.full_terms.length := Nat.mod_le _ _
  rw [new_eq, hc, if_neg (by omega), if_neg (by simp only [TERM_SIZE]; omega)]

/-- Eagerly decoding a serialized block always succeeds and reads
`count mod 2 ^ 32` records. -/
theorem deserialize_serialize_mod (b : Block) :
    deserialize (serialize b) =
      .ok ⟨readTerms (serialize b) 4 (b.full_terms.length % 2 ^ 32)⟩ := by
  have hlen := length_serialize b
  have hc := count_serialize b
  have hmle : b.full_terms.length % 2 ^ 32 ≤ b.full_terms.length := Nat.mod_le _ _
  rw [deserialize_eq, hc, if_neg (by omega), if_neg (by simp only [TERM_SIZE]; omega)]

/-- Reading the first `k` records of a serialized block recovers the first
`k` terms. -/
theorem readTerms_serialize_take (b : Block) (hts : ∀ t ∈ b.full_terms, t.WF)
    (k : Nat) (hk : k ≤ b.full_terms.length) :
    readTerms (serialize b) 4 k = b.full_terms.take k := by
  have hb : toLeBytes 4 b.full_terms.length ++
      ((b.full_terms.take k).map serializeTerm).flatten ++
      ((b.full_terms.drop k).map serializeTerm).flatten = serialize b := by
    rw [serialize, List.append_assoc, ← List.flatten_append, ← List.map_append,
      List.take_append_drop]
  have h := readTerms_spec (b.full_terms.take k)
    (fun t ht => hts t (List.take_subset k _ ht))
    (toLeBytes 4 b.full_terms.length)
    (((b.full_terms.drop k).map serializeTerm).flatten)
  rw [length_toLeBytes, List.length_take, Nat.min_eq_left hk, hb] at h
  exact h

/-! ### Inversion of a successful open -/

theorem new_ok_inv {bytes : List Nat} {r : BlockReader}
    (h : BlockReader.new bytes = .ok r) :
    r.bytes = bytes ∧ r.num_terms = fromLeBytes (bytes.take 4) ∧
      4 + fromLeBytes (bytes.take 4) * TERM_SIZE ≤ bytes.length := by
  rw [new_eq] at h
  by_cases h1 : bytes.length < 4
  · rw [if_pos h1] at h; exact absurd h (by simp)
  · rw [if_neg h1] at h
    by_cases h2 : bytes.length < 4 + fromLeBytes (bytes.take 4) * TERM_SIZE
    · rw [if_pos h2] at h; exact absurd h (by simp)
    · rw [if_neg h2] at h
      cases h
      exact ⟨rfl, rfl, Nat.le_of_not_lt h2⟩

theorem v2_new_ok_inv {bytes : List Nat} {r : manual_zerocopy_v2.BlockReader}
    (h : manual_zerocopy_v2.BlockReader.new bytes = .ok r) :
    r.bytes = bytes ∧ r.num_terms = fromLeBytes (bytes.take 4) ∧
      4 + fromLeBytes (bytes.take 4) * TERM_SIZE ≤ bytes.length := by
  rw [v2_new_eq] at h
  by_cases h1 : bytes.length < 4
  · rw [if_pos h1] at h; exact absurd h (by simp)
  · rw [if_neg h1] at h
    by_cases h2 : bytes.length < 4 + fromLeBytes (bytes.take 4) * TERM_SIZE
    · rw [if_pos h2] at h; exact absurd h (by simp)
    · rw [if_neg h2] at h
      cases h
      exact ⟨rfl, rfl, Nat.le_of_not_lt h2⟩

/-! ### Claim theorems -/

/-- C1: Round-trip — for every well-formed Block `b`, `deserialize (serialize b)`
succeeds and returns a Block equal to `b`, with every record's `doc_id`,
`field_mask` and `frequency` values and the record order preserved exactly. -/
theorem roundtrip (b : Block) (hb : b.WF) :
    deserialize (serialize b) = .ok b := by
  obtain ⟨hlen, hts⟩ := hb
  rw [deserialize_serialize_mod, Nat.mod_eq_of_lt hlen,
    readTerms_serialize_take b hts _ le_rfl, List.take_length]

/-- Witness for C1 at the repository's own two-record test block. -/
theorem roundtrip_witness :
    (Block.mk [⟨1, 0xDEADBEEF, 42⟩, ⟨2, 0xCAFEBABE, 123⟩]).WF ∧
      deserialize (serialize ⟨[⟨1, 0xDEADBEEF, 42⟩, ⟨2, 0xCAFEBABE, 123⟩]⟩) =
        .ok ⟨[⟨1, 0xDEADBEEF, 42⟩, ⟨2, 0xCAFEBABE, 123⟩]⟩ :=
  ⟨by decide, roundtrip ⟨[⟨1, 0xDEADBEEF, 42⟩, ⟨2, 0xCAFEBABE, 123⟩]⟩ (by decide)⟩

/-- C10: count header truncation — the serializer writes the record count as
`num_terms as u32`, i.e. mod `2 ^ 32`; for counts below `2 ^ 32` the header is
exact; the buffer always has length `4 + 32 * N`; and decoding the output
succeeds but recovers only the first `N mod 2 ^ 32` records. -/
theorem count_header_truncation (b : Block) (hts : ∀ t ∈ b.full_terms, t.WF) :
    fromLeBytes ((serialize b).take 4) = b.full_terms.length % 2 ^ 32 ∧
    (serialize b).length = 4 + 32 * b.full_terms.length ∧
    (b.full_terms.length < 2 ^ 32 →
      fromLeBytes ((serialize b).take 4) = b.full_terms.length) ∧
    deserialize (serialize b) =
      .ok ⟨b.full_terms.take (b.full_terms.length % 2 ^ 32)⟩ := by
  refine ⟨count_serialize b, length_serialize b, ?_, ?_⟩
  · intro h
    rw [count_serialize, Nat.mod_eq_of_lt h]
  · rw [deserialize_serialize_mod,
      readTerms_serialize_take b hts _ (Nat.mod_le _ _)]

/-- Witness for C10 at a one-record block. -/
theorem count_header_truncation_witness :
    deserialize (serialize ⟨[⟨3, 4, 5⟩]⟩) =
      .ok ⟨(Block.mk [⟨3, 4, 5⟩]).full_terms.take
        ((Block.mk [⟨3, 4, 5⟩]).full_terms.length % 2 ^ 32)⟩ :=
  (count_header_truncation ⟨[⟨3, 4, 5⟩]⟩ (by decide)).2.2.2

/-- C2: Zero-copy parity — for every Block `b`, opening the serialized buffer
succeeds and the three accessors of the yielded items give, item for item in
order, exactly the fields of the eagerly decoded Block, and materializing the
item at each position gives the record at that position. -/
theorem zero_copy_parity (b : Block) :
    ∃ (r : BlockReader) (blk : Block),
      BlockReader.new (serialize b) = .ok r ∧
      deserialize (serialize b) = .ok blk ∧
      ((r.iter.run).1).map TermReader.doc_id =
        blk.full_terms.map FullTerm.doc_id ∧
      ((r.iter.run).1).map TermReader.field_mask =
        blk.full_terms.map FullTerm.field_mask ∧
      ((r.iter.run).1).map TermReader.frequency =
        blk.full_terms.map FullTerm.frequency ∧
      ((r.iter.run).1).map TermReader.deserialize = blk.full_terms := by
  refine ⟨⟨serialize b, b.full_terms.length % 2 ^ 32⟩,
    ⟨readTerms (serialize b) 4 (b.full_terms.length % 2 ^ 32)⟩,
    new_serialize b, deserialize_serialize_mod b, ?_, ?_, ?_, ?_⟩
  all_goals simp only [BlockReader.iter]
  all_goals rw [← run_deserialize (serialize b) 4 (b.full_terms.length % 2 ^ 32)]
  all_goals rw [List.map_map]
  all_goals rfl

/-- C6: Filter correctness — for every Block `b` and query mask `m`, the
materialized subsequence of yielded items whose `field_mask` meets the mask
equals the same-predicate subsequence of the eagerly decoded records, in
order. -/
theorem filter_correctness (b : Block) (m : Nat) :
    ∃ (r : BlockReader) (blk : Block),
      BlockReader.new (serialize b) = .ok r ∧
      deserialize (serialize b) = .ok blk ∧
      (((r.iter.run).1).filter
          (fun t => t.field_mask &&& m != 0)).map TermReader.deserialize =
        blk.full_terms.filter (fun t => t.field_mask &&& m != 0) := by
  refine ⟨⟨serialize b, b.full_terms.length % 2 ^ 32⟩,
    ⟨readTerms (serialize b) 4 (b.full_terms.length % 2 ^ 32)⟩,
    new_serialize b, deserialize_serialize_mod b, ?_⟩
  simp only [BlockReader.iter]
  rw [← run_deserialize (serialize b) 4 (b.full_terms.length % 2 ^ 32),
    List.filter_map]
  rfl

/-- C5 counterexample: the block of `2 ^ 32` records opens successfully but
`len()` is 0, not the record count — the unrestricted claim fails. -/
theorem exact_size_counterexample :
    (BlockReader.new (serialize ⟨List.replicate (2 ^ 32) ⟨1, 2, 3⟩⟩)).map
        BlockReader.len ≠
      .ok (Block.mk (List.replicate (2 ^ 32) ⟨1, 2, 3⟩)).full_terms.length := by
  have hnew := new_serialize ⟨List.replicate (2 ^ 32) ⟨1, 2, 3⟩⟩
  have hlen : (Block.mk (List.replicate (2 ^ 32) (⟨1, 2, 3⟩ : FullTerm))).full_terms.length
      = 2 ^ 32 := List.length_replicate _ _
  rw [hnew, hlen, Nat.mod_self]
  intro hcontra
  simp only [Except.map] at hcontra
  rw [Except.ok.injEq] at hcontra
  simp only [BlockReader.len] at hcontra
  exact absurd hcontra (by norm_num)

/-- C5 (amended): for every Block with fewer than `2 ^ 32` records, the reader
opens with `len()` equal to the record count, iteration yields exactly `len()`
items and afterwards `next` is `none` with remaining count 0; and in general
each produced item decreases the iterator's `size_hint` count by exactly
one. -/
theorem exact_size (b : Block) (hb : b.full_terms.length < 2 ^ 32) :
    (∃ r : BlockReader, BlockReader.new (serialize b) = .ok r ∧
      r.len = b.full_terms.length ∧
      ((r.iter.run).1).length = r.len ∧
      (r.iter.run).2.next = none ∧
      (r.iter.run).2.size_hint = (0, some 0)) ∧
    ∀ (it it2 : TermIterator) (t : TermReader),
      it.next = some (t, it2) → it2.size_hint.1 + 1 = it.size_hint.1 := by
  constructor
  · refine ⟨⟨serialize b, b.full_terms.length % 2 ^ 32⟩, new_serialize b,
      ?_, ?_, ?_, ?_⟩
    · simp only [BlockReader.len]
      exact Nat.mod_eq_of_lt hb
    · simp only [BlockReader.iter, BlockReader.len]
      rw [run_items]
      simp
    · simp only [BlockReader.iter]
      rw [run_final]
      rfl
    · simp only [BlockReader.iter]
      rw [run_final]
      rfl
  · intro it it2 t h
    unfold TermIterator.next at h
    by_cases h0 : it.remaining = 0
    · rw [if_pos h0] at h
      exact absurd h (by simp)
    · rw [if_neg h0] at h
      rw [Option.some.injEq, Prod.mk.injEq] at h
      obtain ⟨-, h2⟩ := h
      rw [← h2]
      simp only [TermIterator.size_hint]
      omega

/-- Witness for C5 at a one-record block. -/
theorem exact_size_witness :
    (Block.mk [⟨9, 9, 9⟩]).full_terms.length < 2 ^ 32 ∧
    ∃ r : BlockReader, BlockReader.new (serialize ⟨[⟨9, 9, 9⟩]⟩) = .ok r ∧
      r.len = (Block.mk [⟨9, 9, 9⟩]).full_terms.length :=
  ⟨by decide, by
    obtain ⟨⟨r, h1, h2, -⟩, -⟩ := exact_size ⟨[⟨9, 9, 9⟩]⟩ (by decide)
    exact ⟨r, h1, h2⟩⟩

/-- The 32-byte segment of the serialized term sequence at index `i`. -/
theorem flatten_segment (ts : List FullTerm) (i : Nat) (h : i < ts.length) :
    (((ts.map serializeTerm).flatten).drop (32 * i)).take 32 =
      serializeTerm (ts.get ⟨i, h⟩) := by
  induction ts generalizing i with
  | nil => simp at h
  | cons t rest ih =>
    cases i with
    | zero =>
      simp only [List.map_cons, List.flatten_cons, Nat.mul_zero, List.drop_zero]
      rw [show (32 : Nat) = (serializeTerm t).length from
        (length_serializeTerm t).symm, List.take_left]
      rfl
    | succ j =>
      simp only [List.map_cons, List.flatten_cons]
      rw [show 32 * (j + 1) = (serializeTerm t).length + 32 * j by
        rw [length_serializeTerm]; ring, List.drop_append]
      exact ih j (by simpa using h)

/-- C7: Wire-format layout — `serialize` emits `4 + 32 * count` bytes: the
count as `u32` little-endian, then each record's 32-byte segment at offset
`4 + 32 * i`; the empty block encodes to 4 zero bytes and decodes/opens
empty, and the literal one-record scenario behaves as specified. -/
theorem wire_format (b : Block) :
    (serialize b).length = 4 + 32 * b.full_terms.length ∧
    (serialize b).take 4 = toLeBytes 4 b.full_terms.length ∧
    (∀ i (h : i < b.full_terms.length),
      ((serialize b).drop (4 + 32 * i)).take 32 =
        serializeTerm (b.full_terms.get ⟨i, h⟩)) ∧
    serialize ⟨[]⟩ = [0, 0, 0, 0] ∧
    deserialize (serialize ⟨[]⟩) = .ok ⟨[]⟩ ∧
    (BlockReader.new (serialize ⟨[]⟩)).map BlockReader.len = .ok 0 ∧
    (serialize ⟨[⟨100, 0xFF00FF00, 7⟩]⟩).length = 36 ∧
    (serialize ⟨[⟨100, 0xFF00FF00, 7⟩]⟩).take 4 = [1, 0, 0, 0] ∧
    ∃ r : BlockReader,
      BlockReader.new (serialize ⟨[⟨100, 0xFF00FF00, 7⟩]⟩) = .ok r ∧
      ∃ t it2, r.iter.next = some (t, it2) ∧
        t.doc_id = 100 ∧ t.field_mask = 0xFF00FF00 ∧ t.frequency = 7 := by
  refine ⟨length_serialize b, take4_serialize b, ?_, by decide, by decide,
    by decide, by decide, by decide, ?_⟩
  · intro i h
    have hseg := flatten_segment b.full_terms i h
    rw [serialize, show 4 + 32 * i = (toLeBytes 4 b.full_terms.length).length
        + 32 * i by rw [length_toLeBytes], List.drop_append]
    exact hseg
  · exact ⟨⟨serialize ⟨[⟨100, 0xFF00FF00, 7⟩]⟩, 1⟩, by decide,
      ⟨⟨serialize ⟨[⟨100, 0xFF00FF00, 7⟩]⟩, 4⟩,
        ⟨serialize ⟨[⟨100, 0xFF00FF00, 7⟩]⟩, 4 + TERM_SIZE, 0⟩,
        by decide, by decide, by decide, by decide⟩⟩

/-- Witness for C7: the record segment of the literal one-record block. -/
theorem wire_format_witness :
    ((serialize ⟨[⟨100, 0xFF00FF00, 7⟩]⟩).drop (4 + 32 * 0)).take 32 =
      serializeTerm ((Block.mk [⟨100, 0xFF00FF00, 7⟩]).full_terms.get
        ⟨0, by decide⟩) :=
  (wire_format ⟨[⟨100, 0xFF00FF00, 7⟩]⟩).2.2.1 0 (by decide)

theorem data_ne_header :
    ("Buffer too small for data" : String) ≠ "Buffer too small for header" := by
  decide

theorem ok_ne_header {α : Type} (x : α) :
    (Except.ok x : Except String α) ≠ .error "Buffer too small for header" := by
  intro hcontra
  exact Except.noConfusion hcontra

theorem ok_ne_data {α : Type} (x : α) :
    (Except.ok x : Except String α) ≠ .error "Buffer too small for data" := by
  intro hcontra
  exact Except.noConfusion hcontra

/-- C3 counterexample: for a block of `2 ^ 32` records — nonempty — dropping
the final byte of its encoding is still accepted by both `deserialize` and
`BlockReader.new` (the count header wrapped to 0), refuting the unrestricted
truncation-rejection sentence. -/
theorem truncation_rejection_counterexample :
    (Block.mk (List.replicate (2 ^ 32) ⟨0, 0, 0⟩)).full_terms ≠ [] ∧
    deserialize ((serialize ⟨List.replicate (2 ^ 32) ⟨0, 0, 0⟩⟩).dropLast) =
      .ok ⟨[]⟩ ∧
    BlockReader.new ((serialize ⟨List.replicate (2 ^ 32) ⟨0, 0, 0⟩⟩).dropLast) =
      .ok ⟨(serialize ⟨List.replicate (2 ^ 32) ⟨0, 0, 0⟩⟩).dropLast, 0⟩ := by
  have hlen := length_serialize ⟨List.replicate (2 ^ 32) ⟨0, 0, 0⟩⟩
  have hrep : (Block.mk (List.replicate (2 ^ 32) (⟨0, 0, 0⟩ : FullTerm))).full_terms.length
      = 2 ^ 32 := List.length_replicate _ _
  rw [hrep] at hlen
  have h2pos : (0 : Nat) < 2 ^ 32 := by norm_num
  have h4 : (4 : Nat) ≤ (serialize ⟨List.replicate (2 ^ 32) ⟨0, 0, 0⟩⟩).length - 1 := by
    omega
  have htake : (serialize ⟨List.replicate (2 ^ 32) ⟨0, 0, 0⟩⟩).dropLast.take 4 =
      (serialize ⟨List.replicate (2 ^ 32) ⟨0, 0, 0⟩⟩).take 4 := by
    rw [List.dropLast_eq_take, List.take_take, Nat.min_eq_left h4]
  have hc : fromLeBytes ((serialize ⟨List.replicate (2 ^ 32) ⟨0, 0, 0⟩⟩).dropLast.take 4)
      = 0 := by
    rw [htake, count_serialize, hrep, Nat.mod_self]
  have hdll : (serialize ⟨List.replicate (2 ^ 32) ⟨0, 0, 0⟩⟩).dropLast.length =
      (serialize ⟨List.replicate (2 ^ 32) ⟨0, 0, 0⟩⟩).length - 1 :=
    List.length_dropLast _
  refine ⟨?_, ?_, ?_⟩
  · intro hcontra
    have := congrArg List.length hcontra
    rw [hrep] at this
    simp at this
  · rw [deserialize_eq, hc, if_neg (by omega), if_neg (by simp only [TERM_SIZE]; omega)]
    rfl
  · rw [new_eq, hc, if_neg (by omega), if_neg (by simp only [TERM_SIZE]; omega)]

/-- C3 (amended): error characterization — `deserialize` and `BlockReader.new`
fail with the header error iff the buffer is shorter than 4 bytes; they fail
with the payload error iff the buffer has at least 4 bytes but fewer than
`4 + 32 * count` where `count` is read from the first 4 bytes; otherwise both
succeed (trailing bytes tolerated). Removing one trailing byte from the
encoding of a nonempty Block with fewer than `2 ^ 32` records makes both fail
with the payload error. -/
theorem error_characterization :
    (∀ bytes : List Nat,
      (deserialize bytes = .error "Buffer too small for header" ↔
        bytes.length < 4) ∧
      (BlockReader.new bytes = .error "Buffer too small for header" ↔
        bytes.length < 4) ∧
      (deserialize bytes = .error "Buffer too small for data" ↔
        (4 ≤ bytes.length ∧
          bytes.length < 4 + 32 * fromLeBytes (bytes.take 4))) ∧
      (BlockReader.new bytes = .error "Buffer too small for data" ↔
        (4 ≤ bytes.length ∧
          bytes.length < 4 + 32 * fromLeBytes (bytes.take 4))) ∧
      (4 + 32 * fromLeBytes (bytes.take 4) ≤ bytes.length →
        (∃ blk, deserialize bytes = .ok blk) ∧
          ∃ r, BlockReader.new bytes = .ok r)) ∧
    ∀ b : Block, b.full_terms ≠ [] → b.full_terms.length < 2 ^ 32 →
      deserialize ((serialize b).dropLast) = .error "Buffer too small for data" ∧
      BlockReader.new ((serialize b).dropLast) =
        .error "Buffer too small for data" := by
  have hchar : ∀ bytes : List Nat,
      (deserialize bytes = .error "Buffer too small for header" ↔
        bytes.length < 4) ∧
      (BlockReader.new bytes = .error "Buffer too small for header" ↔
        bytes.length < 4) ∧
      (deserialize bytes = .error "Buffer too small for data" ↔
        (4 ≤ bytes.length ∧
          bytes.length < 4 + 32 * fromLeBytes (bytes.take 4))) ∧
      (BlockReader.new bytes = .error "Buffer too small for data" ↔
        (4 ≤ bytes.length ∧
          bytes.length < 4 + 32 * fromLeBytes (bytes.take 4))) ∧
      (4 + 32 * fromLeBytes (bytes.take 4) ≤ bytes.length →
        (∃ blk, deserialize bytes = .ok blk) ∧
          ∃ r, BlockReader.new bytes = .ok r) := by
    intro bytes
    have hcomm : fromLeBytes (bytes.take 4) * TERM_SIZE =
        32 * fromLeBytes (bytes.take 4) := by
      simp only [TERM_SIZE]
      ring
    rw [deserialize_eq, new_eq, hcomm]
    by_cases h1 : bytes.length < 4
    · rw [if_pos h1, if_pos h1]
      refine ⟨by simp [h1], by simp [h1], ?_, ?_, ?_⟩
      · simp only [Except.error.injEq]
        constructor
        · intro hE; exact absurd hE data_ne_header.symm
        · intro hle; omega
      · simp only [Except.error.injEq]
        constructor
        · intro hE; exact absurd hE data_ne_header.symm
        · intro hle; omega
      · intro hle; omega
    · rw [if_neg h1, if_neg h1]
      by_cases h2 : bytes.length < 4 + 32 * fromLeBytes (bytes.take 4)
      · rw [if_pos h2, if_pos h2]
        refine ⟨?_, ?_, by simp [h1, h2]; omega, by simp [h1, h2]; omega, ?_⟩
        · simp only [Except.error.injEq]
          constructor
          · intro hE; exact absurd hE data_ne_header
          · intro hlt; omega
        · simp only [Except.error.injEq]
          constructor
          · intro hE; exact absurd hE data_ne_header
          · intro hlt; omega
        · intro hle; omega
      · rw [if_neg h2, if_neg h2]
        refine ⟨?_, ?_, ?_, ?_, ?_⟩
        · simp only [iff_false, h1]
          exact fun hE => absurd hE (ok_ne_header _)
        · simp only [iff_false, h1]
          exact fun hE => absurd hE (ok_ne_header _)
        · constructor
          · intro hE; exact absurd hE (ok_ne_data _)
          · intro hlt; omega
        · constructor
          · intro hE; exact absurd hE (ok_ne_data _)
          · intro hlt; omega
        · intro _; exact ⟨⟨_, rfl⟩, ⟨_, rfl⟩⟩
  refine ⟨hchar, ?_⟩
  intro b hne hlt
  have hlen := length_serialize b
  have hpos : 0 < b.full_terms.length := List.length_pos.mpr hne
  have h4 : (4 : Nat) ≤ (serialize b).length - 1 := by omega
  have htake : (serialize b).dropLast.take 4 = (serialize b).take 4 := by
    rw [List.dropLast_eq_take, List.take_take, Nat.min_eq_left h4]
  have hc : fromLeBytes ((serialize b).dropLast.take 4) = b.full_terms.length := by
    rw [htake, count_serialize, Nat.mod_eq_of_lt hlt]
  have hdll : (serialize b).dropLast.length = (serialize b).length - 1 :=
    List.length_dropLast _
  constructor
  · rw [deserialize_eq, hc, if_neg (by omega), if_pos (by simp only [TERM_SIZE]; omega)]
  · rw [new_eq, hc, if_neg (by omega), if_pos (by simp only [TERM_SIZE]; omega)]

/-- Witness for C3: a 2-byte buffer fails with the header error, and the
one-record block's truncated encoding fails with the payload error. -/
theorem error_characterization_witness :
    deserialize [0, 0] = .error "Buffer too small for header" ∧
    deserialize ((serialize ⟨[⟨8, 8, 8⟩]⟩).dropLast) =
      .error "Buffer too small for data" :=
  ⟨(error_characterization.1 [0, 0]).1.mpr (by decide),
   (error_characterization.2 ⟨[⟨8, 8, 8⟩]⟩ (by decide) (by decide)).1⟩

/-- C4 counterexample: on a 32-bit size type, the declared count `2 ^ 27`
makes the true expected size `4 + 2 ^ 32`, which wraps to 4 under unchecked
arithmetic, so the 4-byte buffer is accepted instead of being rejected with
the payload-size failure. -/
theorem overflow_wrap_counterexample :
    4 + fromLeBytes ([0, 0, 0, 8].take 4) * TERM_SIZE = 4 + 2 ^ 32 ∧
    deserializeUsize 32 [0, 0, 0, 8] ≠ .error "Buffer too small for data" ∧
    deserializeUsize 32 [0, 0, 0, 8] ≠ .error "Buffer too small for header" ∧
    BlockReader.newUsize 32 [0, 0, 0, 8] = .ok ⟨[0, 0, 0, 8], 134217728⟩ := by
  refine ⟨by decide, ?_, ?_, ?_⟩
  · rw [usize_deserialize_eq, if_neg (by decide), if_neg (by decide)]
    exact ok_ne_data _
  · rw [usize_deserialize_eq, if_neg (by decide), if_neg (by decide)]
    exact ok_ne_header _
  · rw [usize_new_eq, if_neg (by decide), if_neg (by decide)]
    decide

/-- C4 (amended): `deserialize` and `BlockReader.new` compute
`4 + count * TERM_SIZE` with unchecked `usize` arithmetic; since the count
read from a genuine byte buffer is below `2 ^ 32`, the computation cannot
wrap a 64-bit size type, so on the 64-bit target the validation behaves
exactly as the overflow-checked computation would. -/
theorem overflow_size_validation (bytes : List Nat) (h : BytesWF bytes) :
    deserializeUsize 64 bytes = deserialize bytes ∧
    BlockReader.newUsize 64 bytes = BlockReader.new bytes ∧
    (4 + fromLeBytes (bytes.take 4) * TERM_SIZE) % 2 ^ 64 =
      4 + fromLeBytes (bytes.take 4) * TERM_SIZE := by
  have hc := count_lt bytes h
  have h32 : (2 : Nat) ^ 32 = 4294967296 := by norm_num
  have h64 : (2 : Nat) ^ 64 = 18446744073709551616 := by norm_num
  rw [h32] at hc
  have hlt : 4 + fromLeBytes (bytes.take 4) * TERM_SIZE < 2 ^ 64 := by
    simp only [TERM_SIZE]
    rw [h64]
    omega
  have hmod : fromLeBytes (bytes.take 4) % 2 ^ 64 = fromLeBytes (bytes.take 4) := by
    apply Nat.mod_eq_of_lt
    rw [h64]
    omega
  refine ⟨?_, ?_, Nat.mod_eq_of_lt hlt⟩
  · rw [usize_deserialize_eq, deserialize_eq, hmod, Nat.mod_eq_of_lt hlt]
  · rw [usize_new_eq, new_eq, hmod, Nat.mod_eq_of_lt hlt]

/-- Witness for C4 at the empty-block encoding. -/
theorem overflow_size_validation_witness :
    BytesWF [0, 0, 0, 0] ∧
    deserializeUsize 64 [0, 0, 0, 0] = deserialize [0, 0, 0, 0] :=
  ⟨by decide, (overflow_size_validation [0, 0, 0, 0] (by decide)).1⟩

/-- C9: Post-validation infallibility — on any buffer accepted by
`BlockReader.new`, every yielded item's three accessors succeed (each slice
stays within the buffer, so the `try_into`/`unwrap` failure branch is
unreachable), every item's byte range ends at or before the canonical length
`4 + 32 * count`, and that canonical length fits inside the buffer. -/
theorem post_validation_infallible (bytes : List Nat) (r : BlockReader)
    (h : BlockReader.new bytes = .ok r) :
    ∀ t ∈ (r.iter.run).1,
      t.docIdChecked = some t.doc_id ∧
      t.fieldMaskChecked = some t.field_mask ∧
      t.frequencyChecked = some t.frequency ∧
      t.offset + 32 ≤ 4 + 32 * r.num_terms ∧
      4 + 32 * r.num_terms ≤ bytes.length := by
  obtain ⟨hb, hn, hle⟩ := new_ok_inv h
  subst hb
  rw [← hn] at hle
  simp only [TERM_SIZE] at hle
  intro t ht
  rw [show r.iter = (⟨r.bytes, 4, r.num_terms⟩ : TermIterator) from rfl,
    run_items, List.mem_map] at ht
  obtain ⟨i, hi, rfl⟩ := ht
  rw [List.mem_range] at hi
  simp only [TERM_SIZE]
  refine ⟨?_, ?_, ?_, by omega, by omega⟩
  · simp only [TermReader.docIdChecked, checkedSlice]
    rw [if_pos (by omega)]
    rfl
  · simp only [TermReader.fieldMaskChecked, checkedSlice]
    rw [if_pos (by omega)]
    rfl
  · simp only [TermReader.frequencyChecked, checkedSlice]
    rw [if_pos (by omega)]
    rfl

/-- Witness for C9 on a concrete validated one-record buffer. -/
theorem post_validation_infallible_witness :
    (⟨1 :: 0 :: 0 :: 0 :: List.replicate 32 5, 4⟩ : TermReader).docIdChecked =
      some (⟨1 :: 0 :: 0 :: 0 :: List.replicate 32 5, 4⟩ : TermReader).doc_id ∧
    (⟨1 :: 0 :: 0 :: 0 :: List.replicate 32 5, 4⟩ : TermReader).fieldMaskChecked =
      some (⟨1 :: 0 :: 0 :: 0 :: List.replicate 32 5, 4⟩ : TermReader).field_mask ∧
    (⟨1 :: 0 :: 0 :: 0 :: List.replicate 32 5, 4⟩ : TermReader).frequencyChecked =
      some (⟨1 :: 0 :: 0 :: 0 :: List.replicate 32 5, 4⟩ : TermReader).frequency ∧
    (⟨1 :: 0 :: 0 :: 0 :: List.replicate 32 5, 4⟩ : TermReader).offset + 32 ≤
      4 + 32 * (⟨1 :: 0 :: 0 :: 0 :: List.replicate 32 5, 1⟩ : BlockReader).num_terms ∧
    4 + 32 * (⟨1 :: 0 :: 0 :: 0 :: List.replicate 32 5, 1⟩ : BlockReader).num_terms ≤
      (1 :: 0 :: 0 :: 0 :: List.replicate 32 5).length :=
  post_validation_infallible (1 :: 0 :: 0 :: 0 :: List.replicate 32 5)
    ⟨1 :: 0 :: 0 :: 0 :: List.replicate 32 5, 1⟩ (by decide)
    ⟨1 :: 0 :: 0 :: 0 :: List.replicate 32 5, 4⟩ (by decide)

/-- Per-field parity of the v1 and v2 iterators over the same region. -/
theorem run_parity (bytes : List Nat) (off n : Nat) :
    ((TermIterator.run ⟨bytes, off, n⟩).1).map TermReader.doc_id =
      ((manual_zerocopy_v2.TermIterator.run ⟨bytes, off, n⟩).1).map
        manual_zerocopy_v2.ArchivedFullTerm.doc_id ∧
    ((TermIterator.run ⟨bytes, off, n⟩).1).map TermReader.field_mask =
      ((manual_zerocopy_v2.TermIterator.run ⟨bytes, off, n⟩).1).map
        manual_zerocopy_v2.ArchivedFullTerm.field_mask ∧
    ((TermIterator.run ⟨bytes, off, n⟩).1).map TermReader.frequency =
      ((manual_zerocopy_v2.TermIterator.run ⟨bytes, off, n⟩).1).map
        manual_zerocopy_v2.ArchivedFullTerm.frequency := by
  induction n generalizing off with
  | zero => exact ⟨rfl, rfl, rfl⟩
  | succ k ih =>
    obtain ⟨ih1, ih2, ih3⟩ := ih (off + TERM_SIZE)
    refine ⟨?_, ?_, ?_⟩
    · rw [run_succ, v2_run_succ, List.map_cons, List.map_cons, ih1]
      rfl
    · rw [run_succ, v2_run_succ, List.map_cons, List.map_cons, ih2]
      rfl
    · rw [run_succ, v2_run_succ, List.map_cons, List.map_cons, ih3]
      rfl

/-- C8: Strategy interchangeability — the three decode strategies return the
same outcome on every buffer (equal Blocks on success, the same error on
failure), and on any accepted buffer the v1 and v2 readers produce equal
per-field values item for item. -/
theorem strategy_interchangeable :
    (∀ bytes : List Nat,
      manual_zerocopy_v2.deserialize bytes = deserialize bytes ∧
      manual_zerocopy_v3.deserialize bytes = deserialize bytes) ∧
    ∀ (bytes : List Nat) (r : BlockReader) (r2 : manual_zerocopy_v2.BlockReader),
      BlockReader.new bytes = .ok r →
      manual_zerocopy_v2.BlockReader.new bytes = .ok r2 →
      ((r.iter.run).1).map TermReader.doc_id =
        ((r2.iter.run).1).map manual_zerocopy_v2.ArchivedFullTerm.doc_id ∧
      ((r.iter.run).1).map TermReader.field_mask =
        ((r2.iter.run).1).map manual_zerocopy_v2.ArchivedFullTerm.field_mask ∧
      ((r.iter.run).1).map TermReader.frequency =
        ((r2.iter.run).1).map manual_zerocopy_v2.ArchivedFullTerm.frequency := by
  constructor
  · intro bytes
    constructor
    · unfold manual_zerocopy_v2.deserialize
      rw [v2_new_eq, deserialize_eq]
      by_cases h1 : bytes.length < 4
      · rw [if_pos h1, if_pos h1]
      · rw [if_neg h1, if_neg h1]
        by_cases h2 : bytes.length < 4 + fromLeBytes (bytes.take 4) * TERM_SIZE
        · rw [if_pos h2, if_pos h2]
        · rw [if_neg h2, if_neg h2]
          show Except.ok (Block.mk
              (((⟨bytes, fromLeBytes (bytes.take 4)⟩ :
                manual_zerocopy_v2.BlockReader).iter.run).1.map
                manual_zerocopy_v2.ArchivedFullTerm.deserialize)) =
            Except.ok (Block.mk (readTerms bytes 4 (fromLeBytes (bytes.take 4))))
          rw [show (⟨bytes, fromLeBytes (bytes.take 4)⟩ :
              manual_zerocopy_v2.BlockReader).iter =
            (⟨bytes, 4, fromLeBytes (bytes.take 4)⟩ :
              manual_zerocopy_v2.TermIterator) from rfl,
            v2_run_deserialize]
    · rw [v3_deserialize_eq, deserialize_eq]
      have hdrop : (bytes.drop 4).length = bytes.length - 4 := List.length_drop _ _
      by_cases h1 : bytes.length < 4
      · rw [if_pos h1, if_pos h1]
      · by_cases h2 : bytes.length < 4 + fromLeBytes (bytes.take 4) * TERM_SIZE
        · rw [if_neg h1, if_neg h1, if_pos (by omega), if_pos h2]
        · rw [if_neg h1, if_neg h1, if_neg (by omega), if_neg h2,
            readTerms_v3_eq]
  · intro bytes r r2 hr hr2
    obtain ⟨hb, hn, -⟩ := new_ok_inv hr
    subst hb
    obtain ⟨hb2, hn2, -⟩ := v2_new_ok_inv hr2
    rw [show r.iter = (⟨r.bytes, 4, r.num_terms⟩ : TermIterator) from rfl,
      show r2.iter = (⟨r2.bytes, 4, r2.num_terms⟩ :
        manual_zerocopy_v2.TermIterator) from rfl,
      hb2, hn, hn2]
    exact run_parity r.bytes 4 (fromLeBytes (r.bytes.take 4))

/-- Witness for C8: the strategies agree on the empty-block buffer, and the
readers' first-field values agree on a concrete one-record buffer. -/
theorem strategy_interchangeable_witness :
    manual_zerocopy_v3.deserialize [0, 0, 0, 0] = deserialize [0, 0, 0, 0] ∧
    ((⟨1 :: 0 :: 0 :: 0 :: List.replicate 32 9, 1⟩ : BlockReader).iter.run).1.map
        TermReader.doc_id =
      ((⟨1 :: 0 :: 0 :: 0 :: List.replicate 32 9, 1⟩ :
          manual_zerocopy_v2.BlockReader).iter.run).1.map
        manual_zerocopy_v2.ArchivedFullTerm.doc_id :=
  ⟨(strategy_interchangeable.1 [0, 0, 0, 0]).2,
   (strategy_interchangeable.2 (1 :: 0 :: 0 :: 0 :: List.replicate 32 9)
      ⟨1 :: 0 :: 0 :: 0 :: List.replicate 32 9, 1⟩
      ⟨1 :: 0 :: 0 :: 0 :: List.replicate 32 9, 1⟩ (by decide) (by decide)).1⟩
